import Mathlib

/-!
Shallow embedding of the multi-provider rock-identification pipeline of
`src/supabase/functions/identify-rock/index.ts` (the three-provider variant):
the per-provider response-parsing tail of the adapter functions, the
`combineMultipleAnalyses` aggregator with its `findConsensus` helper, and the
HTTP handler's result construction.

Modelling conventions:
* A settled provider invocation is an `Option RockAnalysis`: `some` for a
  fulfilled promise (the adapters always resolve to a truthy object), `none`
  for a rejected one.
* `confidence` is a natural number; the claims under verification restrict it
  to integers in 0..100.
* JavaScript `Array.prototype.sort` with the comparator
  `(a, b) => (b.confidence || 0) - (a.confidence || 0)` is a stable descending
  sort by confidence; `sortByConfDesc` is the (unique) stable descending
  insertion sort.  The source sorts `analyses` in place, so every later use of
  `analyses` observes the sorted order; the embedding mirrors that by using the
  sorted list everywhere after the sort.
* The JavaScript object used by `findConsensus` is an association list that
  preserves key insertion order, as JS string-keyed objects do.
* `JSON.parse` is a platform builtin, not repository code; the parse stage is
  parameterised by an arbitrary decoder `String → Option RockAnalysis`.
* JavaScript truthiness on the handler's `||` defaults: a string is falsy iff
  empty, a number is falsy iff zero, an array is always truthy.  `JValue` and
  `buildResult` model the same result construction over untyped JSON values.
-/

namespace RockWise

/-- One provider's analysis object: the JSON shape every provider prompt
requests (`rockName`, `type`, `composition`, `hardness`, `formation`,
`commonLocations`, `funFact`, `confidence`, `visualFeatures`). -/
structure RockAnalysis where
  rockName : String
  type : String
  composition : List String
  hardness : String
  formation : String
  commonLocations : List String
  funFact : String
  confidence : Nat
  visualFeatures : List String
deriving DecidableEq

/-- An analysis tagged with its provider, as built by the spread
`... value, source` in `combineMultipleAnalyses`. -/
structure SourcedAnalysis where
  analysis : RockAnalysis
  source : String
deriving DecidableEq

/-- The aggregator's output shape: an analysis plus the `analysisSource`
string naming the contributing providers. -/
structure CombinedAnalysis where
  rockName : String
  type : String
  composition : List String
  hardness : String
  formation : String
  commonLocations : List String
  funFact : String
  confidence : Nat
  visualFeatures : List String
  analysisSource : String
deriving DecidableEq

/-- Lines 359-370: collect the fulfilled settlements, in the fixed dispatch
order Gemini, OpenAI, Anthropic, tagging each with its source name. -/
def extractAnalyses (geminiResult openaiResult anthropicResult : Option RockAnalysis) :
    List SourcedAnalysis :=
  (match geminiResult with
   | some v => [⟨v, "Gemini"⟩]
   | none => []) ++
  (match openaiResult with
   | some v => [⟨v, "OpenAI"⟩]
   | none => []) ++
  (match anthropicResult with
   | some v => [⟨v, "Anthropic"⟩]
   | none => [])

/-- Insert `x` after every element of strictly greater confidence: the
insertion step of the stable descending sort. -/
def confInsert (x : SourcedAnalysis) : List SourcedAnalysis → List SourcedAnalysis
  | [] => [x]
  | y :: ys =>
    if x.analysis.confidence < y.analysis.confidence then y :: confInsert x ys
    else x :: y :: ys

/-- Line 390: `analyses.sort((a, b) => (b.confidence || 0) - (a.confidence || 0))`,
a stable sort by confidence descending (ties keep their original order). -/
def sortByConfDesc : List SourcedAnalysis → List SourcedAnalysis
  | [] => []
  | x :: xs => confInsert x (sortByConfDesc xs)

/-- Membership-filtering core of `[...new Set(xs)]`: keep the first occurrence
of each string (case-sensitive), dropping later duplicates. -/
def dedupAux (seen : List String) : List String → List String
  | [] => []
  | x :: xs => if x ∈ seen then dedupAux seen xs else x :: dedupAux (x :: seen) xs

/-- Lines 395 and 399: `[...new Set(xs)]`, JS `Set` iteration order being
first-insertion order. -/
def dedupFirstSeen (l : List String) : List String := dedupAux [] l

/-- JS `toLowerCase()` modelled character-wise (the values voted on here are
ASCII rock names and types). -/
def jsToLower (s : String) : String := String.mk (s.toList.map Char.toLower)

/-- One step of the `reduce` in `findConsensus`: bump the tally of key `k`,
appending a fresh entry at the end when the key is new (JS object key order). -/
def addCount (k : String) : List (String × Nat) → List (String × Nat)
  | [] => [(k, 1)]
  | p :: rest => if p.1 = k then (p.1, p.2 + 1) :: rest else p :: addCount k rest

/-- Lines 429-433: tally the case-normalized values, modelling the JS object
as an insertion-ordered association list. -/
def buildCounts (items : List String) : List (String × Nat) :=
  items.foldl (fun acc item => addCount (jsToLower item) acc) []

/-- Line 435: `Math.max(...Object.values(counts))`, with 0 standing for the
`-Infinity` of the empty spread (both fail the `> 1` test identically). -/
def maxCountOf (counts : List (String × Nat)) : Nat :=
  counts.foldl (fun m p => max m p.2) 0

/-- The JS-object lookup `counts[key]` over the association-list model. -/
def keyVal (w : String) : List (String × Nat) → Nat
  | [] => 0
  | p :: rest => if p.1 = w then p.2 else keyVal w rest

/-- The keys of the association-list model, in insertion order. -/
def keysOf (l : List (String × Nat)) : List String := l.map Prod.fst

/-- Lines 428-441, `findConsensus`: case-insensitive plurality vote.  Returns
the first input (in the given order) whose lowercase form is the first
maximal-count key, provided that maximal count exceeds one; otherwise null. -/
def findConsensus (items : List String) : Option String :=
  if 1 < maxCountOf (buildCounts items) then
    match (buildCounts items).find? (fun p => p.2 == maxCountOf (buildCounts items)) with
    | some p => items.find? (fun s => jsToLower s == p.1)
    | none => none
  else none

/-- JS `maybeString || fallback` where `maybeString` may be null: the fallback
is also taken when the string is empty (falsy). -/
def jsOrStr (v : Option String) (d : String) : String :=
  match v with
  | some s => if s = "" then d else s
  | none => d

/-- Lines 375-386: the record returned when zero analyses succeeded. -/
def noSuccessFallback : CombinedAnalysis :=
  { rockName := "Analysis Failed"
    type := "Unknown"
    composition := ["Unable to determine"]
    hardness := "Unknown"
    formation := "All AI analyses failed"
    commonLocations := ["Unknown"]
    funFact := "Please try uploading a clearer image."
    confidence := 0
    visualFeatures := []
    analysisSource := "No successful analysis" }

/-- Lines 389-425 for a nonempty settlement list.  `best :: rest` is the
confidence-sorted list (the in-place `sort` makes `analyses` itself sorted, so
the feature/composition/name/type/source extractions below all run over the
sorted order).  `(2 * total + k) / (2 * k)` is `Math.round(total / k)` for
naturals (round half up). -/
def mergeAnalyses (best : SourcedAnalysis) (rest : List SourcedAnalysis) : CombinedAnalysis :=
  let sorted := best :: rest
  let uniqueVisualFeatures := dedupFirstSeen ((sorted.map fun x => x.analysis.visualFeatures).flatten)
  let uniqueComposition := dedupFirstSeen ((sorted.map fun x => x.analysis.composition).flatten)
  let k := sorted.length
  let total := (sorted.map fun x => x.analysis.confidence).sum
  let avgConfidence := (2 * total + k) / (2 * k)
  let rockNames := (sorted.map fun x => x.analysis.rockName).filter fun s => s != ""
  let types := (sorted.map fun x => x.analysis.type).filter fun s => s != ""
  { rockName := jsOrStr (findConsensus rockNames) best.analysis.rockName
    type := jsOrStr (findConsensus types) best.analysis.type
    composition := uniqueComposition.take 5
    hardness := best.analysis.hardness
    formation := best.analysis.formation
    commonLocations := best.analysis.commonLocations
    funFact := best.analysis.funFact
    confidence := min (avgConfidence + 10) 95
    visualFeatures := uniqueVisualFeatures.take 8
    analysisSource :=
      "Multi-AI Analysis (" ++ String.intercalate (", ") (sorted.map fun x => x.source) ++ ")" }

/-- Lines 356-426, `combineMultipleAnalyses`: fall back when no settlement
succeeded, otherwise merge over the confidence-sorted successes. -/
def combineMultipleAnalyses (geminiResult openaiResult anthropicResult : Option RockAnalysis) :
    CombinedAnalysis :=
  match sortByConfDesc (extractAnalyses geminiResult openaiResult anthropicResult) with
  | [] => noSuccessFallback
  | best :: rest => mergeAnalyses best rest

/-- The confidence-sorted successful analyses, as `combineMultipleAnalyses`
sees them after the in-place sort. -/
def sortedList (g o a : Option RockAnalysis) : List SourcedAnalysis :=
  sortByConfDesc (extractAnalyses g o a)

/-- Line 411: the nonempty `type` values, in the post-sort order. -/
def typesOf (g o a : Option RockAnalysis) : List String :=
  ((sortedList g o a).map fun x => x.analysis.type).filter fun s => s != ""

/-- Line 407: the nonempty `rockName` values, in the post-sort order. -/
def rockNamesOf (g o a : Option RockAnalysis) : List String :=
  ((sortedList g o a).map fun x => x.analysis.rockName).filter fun s => s != ""

/-- Number of occurrences of the normalized value `w` in `items`
(case-insensitive multiplicity). -/
def cntLower (w : String) (items : List String) : Nat :=
  items.countP fun s => jsToLower s == w

/-- The JSON body either HTTP branch serializes: the catch branch adds an
`error` string and has no `analysisSource`; the success branch has
`analysisSource` and no `error`. -/
structure HttpResult where
  error : Option String
  rockName : String
  type : String
  composition : List String
  hardness : String
  formation : String
  commonLocations : List String
  funFact : String
  confidence : Nat
  visualFeatures : List String
  analysisSource : Option String
deriving DecidableEq

/-- An HTTP response: status code plus JSON body. -/
structure HttpResponse where
  status : Nat
  body : HttpResult
deriving DecidableEq

/-- JS `n || d` on a number: zero is falsy. -/
def jsOrN (v d : Nat) : Nat := if v = 0 then d else v

/-- JS `s || d` on a string: the empty string is falsy. -/
def jsOrS (v d : String) : String := if v = "" then d else v

/-- Lines 43-54: the 200-path result object.  Array-valued fields pass through
unchanged because a JS array (even an empty one) is always truthy, so their
`|| default` never fires. -/
def okBody (c : CombinedAnalysis) : HttpResult :=
  { error := none
    rockName := jsOrS c.rockName ("Unknown Rock")
    type := jsOrS c.type ("Unknown")
    composition := c.composition
    hardness := jsOrS c.hardness ("Unknown")
    formation := jsOrS c.formation ("Unable to determine formation process")
    commonLocations := c.commonLocations
    funFact := jsOrS c.funFact ("Please try uploading a clearer image for better identification.")
    confidence := jsOrN c.confidence 65
    visualFeatures := c.visualFeatures
    analysisSource := some (jsOrS c.analysisSource ("Multi-AI Analysis")) }

/-- Lines 62-79: the catch-branch body for the missing-image error. -/
def errorBody : HttpResult :=
  { error := some ("No image provided")
    rockName := "Unknown Rock"
    type := "Unknown"
    composition := ["Unable to determine"]
    hardness := "Unknown"
    formation := "Unable to determine formation process"
    commonLocations := ["Unknown"]
    funFact := "Please try uploading a clearer image for better identification."
    confidence := 0
    visualFeatures := []
    analysisSource := none }

/-- Lines 15-80: the serve handler on a parsed request body, given the three
settlements.  `if (!image) throw ...` fires on a missing image and on an
empty-string image (both falsy), landing in the catch branch (status 500);
otherwise the combined analysis is returned with status 200. -/
def handleRequest (image : Option String) (g o a : Option RockAnalysis) : HttpResponse :=
  match image with
  | none => ⟨500, errorBody⟩
  | some img => if img = "" then ⟨500, errorBody⟩
                else ⟨200, okBody (combineMultipleAnalyses g o a)⟩

/-- Lines 154-164: the Gemini adapter's placeholder for an unparseable reply. -/
def geminiPlaceholder : RockAnalysis :=
  { rockName := "Unidentified Rock Specimen"
    type := "Unknown"
    composition := ["Unable to determine from image"]
    hardness := "Unknown"
    formation := "Formation process could not be determined"
    commonLocations := ["Various locations"]
    funFact := "Geological specimen requiring further analysis."
    confidence := 50
    visualFeatures := ["Rock specimen visible"] }

/-- Lines 247-257: the OpenAI adapter's placeholder for an unparseable reply. -/
def openaiPlaceholder : RockAnalysis :=
  { rockName := "OpenAI Analysis Unavailable"
    type := "Unknown"
    composition := ["Unable to determine"]
    hardness := "Unknown"
    formation := "Analysis incomplete"
    commonLocations := ["Various locations"]
    funFact := "OpenAI analysis could not be completed."
    confidence := 25
    visualFeatures := ["Image processed"] }

/-- Lines 338-348: the Anthropic adapter's placeholder for an unparseable reply. -/
def anthropicPlaceholder : RockAnalysis :=
  { rockName := "Anthropic Analysis Unavailable"
    type := "Unknown"
    composition := ["Unable to determine"]
    hardness := "Unknown"
    formation := "Analysis incomplete"
    commonLocations := ["Various locations"]
    funFact := "Anthropic analysis could not be completed."
    confidence := 25
    visualFeatures := ["Image processed"] }

/-- The index positions at which character `c` occurs, ascending. -/
def charIndices (c : Char) (l : List Char) : List Nat :=
  (l.enum.filter fun p => p.2 == c).map fun p => p.1

/-- The regex `text.match` of the adapters: the leftmost-longest match of a
pattern matching an opening brace, any characters, and a closing brace, i.e.
the substring from the first opening brace that still has a closing brace at
or after it, through the last closing brace of the whole text.  `none` when no
such pair exists. -/
def extractJson (s : String) : Option String :=
  let l := s.toList
  match (charIndices ('}') l).getLast? with
  | none => none
  | some q =>
    match (charIndices ('{') l).find? (fun p => decide (p ≤ q)) with
    | none => none
    | some p => some (String.mk ((l.drop p).take (q + 1 - p)))

/-- The parsing tail shared by the three adapters (e.g. Gemini lines 139-164):
when the reply text exists and is nonempty, try the brace extraction and the
JSON decode; any failure along the way degrades to the provider's placeholder.
The decoder stands for the `JSON.parse` builtin and is a parameter. -/
def adapterParse (decode : String → Option RockAnalysis) (placeholder : RockAnalysis) :
    Option String → RockAnalysis
  | none => placeholder
  | some t =>
    if t = "" then placeholder
    else
      match (extractJson t).bind decode with
      | some r => r
      | none => placeholder

/-- The Gemini adapter's text-to-analysis stage. -/
def geminiTextToAnalysis (decode : String → Option RockAnalysis) (text : Option String) :
    RockAnalysis :=
  adapterParse decode geminiPlaceholder text

/-- The OpenAI adapter's text-to-analysis stage. -/
def openaiTextToAnalysis (decode : String → Option RockAnalysis) (text : Option String) :
    RockAnalysis :=
  adapterParse decode openaiPlaceholder text

/-- The Anthropic adapter's text-to-analysis stage. -/
def anthropicTextToAnalysis (decode : String → Option RockAnalysis) (text : Option String) :
    RockAnalysis :=
  adapterParse decode anthropicPlaceholder text

/-- All fields of a record are populated: no string is empty and no list of
strings is empty. -/
def populatedRecord (r : RockAnalysis) : Bool :=
  r.rockName != "" && r.type != "" && !r.composition.isEmpty && r.hardness != "" &&
  r.formation != "" && !r.commonLocations.isEmpty && r.funFact != "" && !r.visualFeatures.isEmpty

/-- An untyped JSON value, as `JSON.parse` may yield for any field. -/
inductive JValue where
  | jnull : JValue
  | jbool : Bool → JValue
  | jnum : Int → JValue
  | jstr : String → JValue
  | jarr : List JValue → JValue

/-- JS truthiness of a JSON value. -/
def JValue.truthy : JValue → Bool
  | .jnull => false
  | .jbool b => b
  | .jnum n => n != 0
  | .jstr s => s != ""
  | .jarr _ => true

/-- JS `v || d` over untyped values. -/
def jsOr (v d : JValue) : JValue := if v.truthy then v else d

/-- A combined-analysis object with untyped field values, as it is when a
provider's decoded JSON carried wrong-typed fields (the source never
type-checks decoded fields). -/
structure JRecord where
  rockName : JValue
  type : JValue
  composition : JValue
  hardness : JValue
  formation : JValue
  commonLocations : JValue
  funFact : JValue
  confidence : JValue
  visualFeatures : JValue
  analysisSource : JValue

/-- Lines 43-54 over untyped values: each field of the 200-path result is the
combined value when truthy, else the fixed default.  No type check occurs. -/
def buildResult (c : JRecord) : JRecord :=
  { rockName := jsOr c.rockName (.jstr ("Unknown Rock"))
    type := jsOr c.type (.jstr ("Unknown"))
    composition := jsOr c.composition (.jarr [.jstr ("Unable to determine")])
    hardness := jsOr c.hardness (.jstr ("Unknown"))
    formation := jsOr c.formation (.jstr ("Unable to determine formation process"))
    commonLocations := jsOr c.commonLocations (.jarr [.jstr ("Unknown")])
    funFact := jsOr c.funFact
      (.jstr ("Please try uploading a clearer image for better identification."))
    confidence := jsOr c.confidence (.jnum 65)
    visualFeatures := jsOr c.visualFeatures (.jarr [])
    analysisSource := jsOr c.analysisSource (.jstr ("Multi-AI Analysis")) }

/-- The combined analysis reaching the result construction when the anchor's
decoded record carried the number 7 in its `hardness` field.  The adapters
return `JSON.parse`'s output unvalidated; the aggregator copies `hardness`
verbatim from the anchor (a plain property copy involving no arithmetic and no
string operation, so it neither throws nor coerces for any JSON value), and
every other field here is a usual well-typed aggregator output, so nothing on
the way to the response construction rewrites or rejects the wrong-typed
hardness.  (`confidence`, by contrast, is recomputed arithmetically by the
aggregator, and `rockName`/`type` pass through the case-normalizing vote, so
those cannot arrive at the response step wrong-typed.) -/
def wrongHardnessCombined : JRecord :=
  { rockName := .jstr ("Granite")
    type := .jstr ("Igneous")
    composition := .jarr [.jstr ("Quartz")]
    hardness := .jnum 7
    formation := .jstr ("Cooled magma")
    commonLocations := .jarr [.jstr ("Alps")]
    funFact := .jstr ("A fact")
    confidence := .jnum 77
    visualFeatures := .jarr []
    analysisSource := .jstr ("Multi-AI Analysis (Gemini)") }

/-- Test fixture: an Igneous record with confidence 60. -/
def igneous60 : RockAnalysis :=
  { rockName := "Basalt"
    type := "Igneous"
    composition := ["Plagioclase"]
    hardness := "6"
    formation := "Rapidly cooled lava"
    commonLocations := ["Hawaii"]
    funFact := "Fine-grained"
    confidence := 60
    visualFeatures := ["dark surface"] }

/-- Test fixture: a Sedimentary record with confidence 90 (the anchor of the
consensus tie-break scenario). -/
def sedimentary90 : RockAnalysis :=
  { rockName := "Sandstone"
    type := "Sedimentary"
    composition := ["Quartz grains"]
    hardness := "3-4"
    formation := "Compressed sand"
    commonLocations := ["Utah"]
    funFact := "Layered"
    confidence := 90
    visualFeatures := ["visible layers"] }

/-- Test fixture: an Igneous record with confidence 50. -/
def igneous50 : RockAnalysis :=
  { rockName := "Granite"
    type := "Igneous"
    composition := ["Feldspar"]
    hardness := "7"
    formation := "Slowly cooled magma"
    commonLocations := ["Alps"]
    funFact := "Speckled"
    confidence := 50
    visualFeatures := ["speckles"] }

/-- Test fixture with attributes Quartz, Mica and a chosen confidence. -/
def quartzMica (c : Nat) : RockAnalysis :=
  { rockName := "RockOne"
    type := "TypeOne"
    composition := ["Quartz", "Mica"]
    hardness := "1"
    formation := "ProcessOne"
    commonLocations := ["PlaceOne"]
    funFact := "FactOne"
    confidence := c
    visualFeatures := ["FeatureOne"] }

/-- Test fixture with attributes Mica, Feldspar and a chosen confidence. -/
def micaFeldspar (c : Nat) : RockAnalysis :=
  { rockName := "RockTwo"
    type := "TypeTwo"
    composition := ["Mica", "Feldspar"]
    hardness := "2"
    formation := "ProcessTwo"
    commonLocations := ["PlaceTwo"]
    funFact := "FactTwo"
    confidence := c
    visualFeatures := ["FeatureTwo"] }

/-- Test fixture with the single attribute Quartz and a chosen confidence. -/
def quartzOnly (c : Nat) : RockAnalysis :=
  { rockName := "RockThree"
    type := "TypeThree"
    composition := ["Quartz"]
    hardness := "3"
    formation := "ProcessThree"
    commonLocations := ["PlaceThree"]
    funFact := "FactThree"
    confidence := c
    visualFeatures := ["FeatureThree"] }

/-! ## Helper lemmas -/

/-- Inserting an element permutes consing it. -/
theorem confInsert_perm (x : SourcedAnalysis) (l : List SourcedAnalysis) :
    (confInsert x l).Perm (x :: l) := by
  induction l with
  | nil => simp [confInsert]
  | cons y ys ih =>
    by_cases h : x.analysis.confidence < y.analysis.confidence
    · simp only [confInsert, if_pos h]
      exact (ih.cons y).trans (List.Perm.swap x y ys)
    · simp only [confInsert, if_neg h]
      exact List.Perm.refl _

/-- The stable sort permutes the input. -/
theorem sortByConfDesc_perm (l : List SourcedAnalysis) : (sortByConfDesc l).Perm l := by
  induction l with
  | nil => simp [sortByConfDesc]
  | cons x xs ih => exact (confInsert_perm x (sortByConfDesc xs)).trans (ih.cons x)

/-- Unfolding `combineMultipleAnalyses` on a nonempty sorted settlement list. -/
theorem combine_eq_merge (g o a : Option RockAnalysis) (best : SourcedAnalysis)
    (rest : List SourcedAnalysis) (h : sortedList g o a = best :: rest) :
    combineMultipleAnalyses g o a = mergeAnalyses best rest := by
  unfold sortedList at h
  unfold combineMultipleAnalyses
  rw [h]

/-- No element of the deduplicated output was already seen. -/
theorem mem_dedupAux_not_seen :
    ∀ (l seen : List String) (x : String), x ∈ dedupAux seen l → x ∉ seen := by
  intro l
  induction l with
  | nil => intro seen x h; simp [dedupAux] at h
  | cons y ys ih =>
    intro seen x h
    by_cases hy : y ∈ seen
    · simp only [dedupAux, if_pos hy] at h
      exact ih seen x h
    · simp only [dedupAux, if_neg hy, List.mem_cons] at h
      rcases h with h | h
      · subst h; exact hy
      · intro hx
        exact (ih (y :: seen) x h) (List.mem_cons_of_mem _ hx)

/-- The deduplicated output has no duplicates. -/
theorem dedupAux_nodup : ∀ (l seen : List String), (dedupAux seen l).Nodup := by
  intro l
  induction l with
  | nil => intro seen; simp [dedupAux]
  | cons y ys ih =>
    intro seen
    by_cases hy : y ∈ seen
    · simp only [dedupAux, if_pos hy]
      exact ih seen
    · simp only [dedupAux, if_neg hy]
      refine List.Nodup.cons ?_ (ih (y :: seen))
      intro hmem
      exact (mem_dedupAux_not_seen ys (y :: seen) y hmem) (List.mem_cons_self y seen)

/-- `dedupFirstSeen` has no duplicates. -/
theorem dedupFirstSeen_nodup (l : List String) : (dedupFirstSeen l).Nodup :=
  dedupAux_nodup l []

/-- Counts of two mutually exclusive predicates total at most the length. -/
theorem countP_two_le_length (p q : String → Bool) (l : List String)
    (h : ∀ s, ¬(p s = true ∧ q s = true)) :
    l.countP p + l.countP q ≤ l.length := by
  induction l with
  | nil => simp
  | cons x t ih =>
    rw [List.countP_cons, List.countP_cons, List.length_cons]
    have hx := h x
    cases hp : p x <;> cases hq : q x <;> simp [hp, hq] at hx ⊢ <;> omega

/-- At most three settlements can be fulfilled. -/
theorem extract_length_le_three (g o a : Option RockAnalysis) :
    (extractAnalyses g o a).length ≤ 3 := by
  rcases g <;> rcases o <;> rcases a <;> simp [extractAnalyses]

/-- The source tags of the fulfilled settlements are pairwise distinct. -/
theorem extract_sources_nodup (g o a : Option RockAnalysis) :
    ((extractAnalyses g o a).map fun x => x.source).Nodup := by
  rcases g <;> rcases o <;> rcases a <;> simp [extractAnalyses]

/-- The value lists voted over contain at most three entries. -/
theorem projFilter_length_le_three (g o a : Option RockAnalysis)
    (f : SourcedAnalysis → String) :
    (((sortedList g o a).map f).filter fun s => s != "").length ≤ 3 := by
  calc (((sortedList g o a).map f).filter fun s => s != "").length
      ≤ ((sortedList g o a).map f).length := List.length_filter_le _ _
    _ = (sortedList g o a).length := List.length_map _ _
    _ = (extractAnalyses g o a).length := (sortByConfDesc_perm _).length_eq
    _ ≤ 3 := extract_length_le_three g o a

/-- Bumping key `k` raises exactly that key's tally by one. -/
theorem keyVal_addCount (k w : String) (l : List (String × Nat)) :
    keyVal w (addCount k l) = keyVal w l + (if w = k then 1 else 0) := by
  induction l with
  | nil =>
    by_cases hwk : w = k
    · simp [addCount, keyVal, hwk]
    · have h2 : ¬k = w := fun hc => hwk hc.symm
      simp [addCount, keyVal, hwk, h2]
  | cons p rest ih =>
    by_cases hpk : p.1 = k
    · simp only [addCount, if_pos hpk]
      by_cases hwp : p.1 = w
      · have hwk : w = k := by rw [← hwp, hpk]
        simp [keyVal, hwp, hwk]
      · have hwk : ¬w = k := by rw [← hpk]; intro hc; exact hwp (by rw [hc])
        simp [keyVal, hwp, hwk]
    · simp only [addCount, if_neg hpk]
      by_cases hwp : p.1 = w
      · simp [keyVal, hwp]
        have hwk : ¬w = k := by rw [← hwp]; exact hpk
        simp [hwk]
      · simp [keyVal, hwp, ih]

/-- The fold building the tallies adds the case-insensitive multiplicities. -/
theorem keyVal_foldl (items : List String) :
    ∀ (acc : List (String × Nat)) (w : String),
      keyVal w (items.foldl (fun a it => addCount (jsToLower it) a) acc) =
        keyVal w acc + cntLower w items := by
  induction items with
  | nil => intro acc w; simp [cntLower]
  | cons i is ih =>
    intro acc w
    rw [List.foldl_cons, ih (addCount (jsToLower i) acc) w, keyVal_addCount]
    simp only [cntLower, List.countP_cons]
    by_cases h : jsToLower i = w
    · simp [h, cntLower]
      omega
    · have : ¬(jsToLower i == w) = true := by simp [h]
      simp [h, this, cntLower, Ne.symm h]

/-- The tally of key `w` is the case-insensitive multiplicity of `w`. -/
theorem keyVal_buildCounts (items : List String) (w : String) :
    keyVal w (buildCounts items) = cntLower w items := by
  have := keyVal_foldl items [] w
  simpa [buildCounts, keyVal] using this

/-- Bumping a key either keeps the key list or appends the new key. -/
theorem keysOf_addCount (k : String) (l : List (String × Nat)) :
    keysOf (addCount k l) = if k ∈ keysOf l then keysOf l else keysOf l ++ [k] := by
  induction l with
  | nil => simp [addCount, keysOf]
  | cons p rest ih =>
    by_cases hpk : p.1 = k
    · simp [addCount, hpk, keysOf]
    · simp only [addCount, if_neg hpk, keysOf, List.map_cons]
      by_cases hk : k ∈ keysOf rest
      · have hmem : k ∈ p.1 :: List.map Prod.fst rest :=
          List.mem_cons_of_mem _ (by simpa [keysOf] using hk)
        rw [if_pos hmem]
        have hk' : k ∈ List.map Prod.fst rest := by simpa [keysOf] using hk
        have ihh : List.map Prod.fst (addCount k rest) = List.map Prod.fst rest := by
          have h := ih
          simp only [keysOf] at h
          rw [h, if_pos hk']
        rw [ihh]
      · have hmem : k ∉ p.1 :: List.map Prod.fst rest := by
          intro hc
          rcases List.mem_cons.mp hc with hc | hc
          · exact hpk hc.symm
          · exact hk (by simpa [keysOf] using hc)
        rw [if_neg hmem]
        have hk' : k ∉ List.map Prod.fst rest := by simpa [keysOf] using hk
        have ihh : List.map Prod.fst (addCount k rest) = List.map Prod.fst rest ++ [k] := by
          have h := ih
          simp only [keysOf] at h
          rw [h, if_neg hk']
        rw [ihh]
        simp

/-- Bumping a key preserves distinctness of the keys. -/
theorem keysOf_addCount_nodup (k : String) (l : List (String × Nat))
    (h : (keysOf l).Nodup) : (keysOf (addCount k l)).Nodup := by
  rw [keysOf_addCount]
  by_cases hk : k ∈ keysOf l
  · rw [if_pos hk]; exact h
  · rw [if_neg hk]
    rw [List.nodup_append]
    exact ⟨h, List.nodup_singleton k, by
      intro x hx hx'
      simp only [List.mem_singleton] at hx'
      subst hx'
      exact hk hx⟩

/-- The tallies carry pairwise-distinct keys. -/
theorem buildCounts_keys_nodup (items : List String) :
    (keysOf (buildCounts items)).Nodup := by
  unfold buildCounts
  suffices h : ∀ acc : List (String × Nat), (keysOf acc).Nodup →
      (keysOf (items.foldl (fun a it => addCount (jsToLower it) a) acc)).Nodup by
    exact h [] (by simp [keysOf])
  induction items with
  | nil => intro acc hacc; simpa using hacc
  | cons i is ih =>
    intro acc hacc
    rw [List.foldl_cons]
    exact ih _ (keysOf_addCount_nodup _ _ hacc)

/-- Under distinct keys, searching for a member's key finds that member. -/
theorem find?_of_mem_nodupKeys :
    ∀ (l : List (String × Nat)) (p : String × Nat), (keysOf l).Nodup → p ∈ l →
      l.find? (fun q => q.1 == p.1) = some p := by
  intro l
  induction l with
  | nil => intro p _ hp; simp at hp
  | cons q qs ih =>
    intro p hnd hp
    have hnd' : q.1 ∉ keysOf qs ∧ (keysOf qs).Nodup := by
      simpa [keysOf, List.nodup_cons] using hnd
    rcases List.mem_cons.mp hp with h | h
    · subst h
      simp [List.find?]
    · have hne : ¬(q.1 == p.1) = true := by
        simp only [beq_iff_eq]
        intro hc
        exact hnd'.1 (hc ▸ List.mem_map_of_mem Prod.fst h)
      simp only [List.find?, hne]
      exact ih p hnd'.2 h

/-- A search hit determines the tally value. -/
theorem keyVal_eq_of_find? :
    ∀ (l : List (String × Nat)) (w : String) (p : String × Nat),
      l.find? (fun q => q.1 == w) = some p → keyVal w l = p.2 := by
  intro l
  induction l with
  | nil => intro w p h; simp [List.find?] at h
  | cons q qs ih =>
    intro w p h
    by_cases hq : q.1 = w
    · have : (q.1 == w) = true := by simp [hq]
      simp only [List.find?, this] at h
      cases h
      simp [keyVal, hq]
    · have : ¬(q.1 == w) = true := by simp [hq]
      simp only [List.find?, this] at h
      simp only [keyVal, if_neg hq]
      exact ih w p h

/-- Every tally entry records its key's case-insensitive multiplicity. -/
theorem snd_eq_cntLower (items : List String) (p : String × Nat)
    (hp : p ∈ buildCounts items) : p.2 = cntLower p.1 items := by
  have hf := find?_of_mem_nodupKeys (buildCounts items) p (buildCounts_keys_nodup items) hp
  have := keyVal_eq_of_find? (buildCounts items) p.1 p hf
  rw [← this, keyVal_buildCounts]

/-- A positive tally is realised by an entry of the tally list. -/
theorem keyVal_pos_mem :
    ∀ (l : List (String × Nat)) (w : String), 0 < keyVal w l →
      ∃ p, p ∈ l ∧ p.1 = w ∧ p.2 = keyVal w l := by
  intro l
  induction l with
  | nil => intro w h; simp [keyVal] at h
  | cons q qs ih =>
    intro w h
    by_cases hq : q.1 = w
    · exact ⟨q, List.mem_cons_self _ _, hq, by simp [keyVal, hq]⟩
    · simp only [keyVal, if_neg hq] at h ⊢
      obtain ⟨p, hp, hp1, hp2⟩ := ih w h
      exact ⟨p, List.mem_cons_of_mem _ hp, hp1, hp2⟩

/-- An occurring value has a tally entry carrying its multiplicity. -/
theorem exists_entry_of_cnt_pos (items : List String) (w : String)
    (h : 1 ≤ cntLower w items) :
    ∃ p, p ∈ buildCounts items ∧ p.1 = w ∧ p.2 = cntLower w items := by
  have hkv : keyVal w (buildCounts items) = cntLower w items := keyVal_buildCounts items w
  obtain ⟨p, hp, hp1, hp2⟩ := keyVal_pos_mem (buildCounts items) w (by omega)
  exact ⟨p, hp, hp1, by rw [hp2, hkv]⟩

/-- The running maximum never drops below its seed. -/
theorem le_foldl_max (l : List (String × Nat)) :
    ∀ init : Nat, init ≤ l.foldl (fun m p => max m p.2) init := by
  induction l with
  | nil => intro init; simp
  | cons q qs ih =>
    intro init
    rw [List.foldl_cons]
    exact le_trans (le_max_left _ _) (ih (max init q.2))

/-- Every entry's tally is at most the running maximum. -/
theorem mem_le_foldl_max (l : List (String × Nat)) :
    ∀ (init : Nat) (p : String × Nat), p ∈ l →
      p.2 ≤ l.foldl (fun m p => max m p.2) init := by
  induction l with
  | nil => intro _ p hp; simp at hp
  | cons q qs ih =>
    intro init p hp
    rw [List.foldl_cons]
    rcases List.mem_cons.mp hp with h | h
    · subst h
      exact le_trans (le_max_right _ _) (le_foldl_max qs (max init p.2))
    · exact ih (max init q.2) p h

/-- The running maximum is bounded by any common bound. -/
theorem foldl_max_le (l : List (String × Nat)) :
    ∀ (init b : Nat), init ≤ b → (∀ p ∈ l, p.2 ≤ b) →
      l.foldl (fun m p => max m p.2) init ≤ b := by
  induction l with
  | nil => intro init b hi _; simpa using hi
  | cons q qs ih =>
    intro init b hi h
    rw [List.foldl_cons]
    exact ih _ b (max_le hi (h q (List.mem_cons_self _ _)))
      fun p hp => h p (List.mem_cons_of_mem _ hp)

/-- `findConsensus` under a strict plurality: when value `w` (normalized)
occurs at least twice and strictly more often than every other normalized
value, the result is the first input whose normalized form is `w`. -/
theorem findConsensus_plural (items : List String) (w : String)
    (h2 : 2 ≤ cntLower w items)
    (hmax : ∀ u, u ≠ w → cntLower u items < cntLower w items) :
    ∃ r, findConsensus items = some r ∧ r ∈ items ∧ jsToLower r = w := by
  obtain ⟨pw, hpwmem, hpw1, hpw2⟩ := exists_entry_of_cnt_pos items w (by omega)
  have hub : ∀ p ∈ buildCounts items, p.2 ≤ cntLower w items := by
    intro p hp
    have hcnt := snd_eq_cntLower items p hp
    by_cases hw : p.1 = w
    · rw [hcnt, hw]
    · exact le_of_lt (hcnt ▸ hmax p.1 hw)
  have hmaxeq : maxCountOf (buildCounts items) = cntLower w items := by
    unfold maxCountOf
    refine le_antisymm (foldl_max_le _ 0 _ (by omega) hub) ?_
    calc cntLower w items = pw.2 := hpw2.symm
      _ ≤ _ := mem_le_foldl_max _ 0 pw hpwmem
  have hfind : ∃ q, (buildCounts items).find? (fun p => p.2 == maxCountOf (buildCounts items)) = some q := by
    cases hq : (buildCounts items).find? (fun p => p.2 == maxCountOf (buildCounts items)) with
    | some q => exact ⟨q, rfl⟩
    | none =>
      exfalso
      have := List.find?_eq_none.mp hq pw hpwmem
      apply this
      simp [hpw2, hmaxeq]
  obtain ⟨q, hq⟩ := hfind
  obtain ⟨q1, q2⟩ := q
  have hqmem := List.mem_of_find?_eq_some hq
  have hqpred := List.find?_some hq
  have hq2 : q2 = cntLower w items := by
    rw [beq_iff_eq] at hqpred
    simpa [hmaxeq] using hqpred
  have hq1 : q1 = w := by
    have hcnt := snd_eq_cntLower items (q1, q2) hqmem
    simp only at hcnt
    by_contra hne
    have := hmax q1 hne
    omega
  rw [hq1] at hq
  have hsome : ∃ r, items.find? (fun s => jsToLower s == w) = some r := by
    cases hr : items.find? (fun s => jsToLower s == w) with
    | some r => exact ⟨r, rfl⟩
    | none =>
      exfalso
      have hpos : 0 < items.countP (fun s => jsToLower s == w) := by
        have : cntLower w items = items.countP (fun s => jsToLower s == w) := rfl
        omega
      obtain ⟨s, hs, hsw⟩ := List.countP_pos_iff.mp hpos
      exact (List.find?_eq_none.mp hr s hs) hsw
  obtain ⟨r, hr⟩ := hsome
  refine ⟨r, ?_, List.mem_of_find?_eq_some hr, by
    have := List.find?_some hr
    simpa using this⟩
  unfold findConsensus
  rw [if_pos (by omega : 1 < maxCountOf (buildCounts items))]
  rw [hq]
  exact hr

/-- `findConsensus` is null when no normalized value repeats. -/
theorem findConsensus_no_repeat (items : List String)
    (h : ∀ w, cntLower w items ≤ 1) : findConsensus items = none := by
  have hb : maxCountOf (buildCounts items) ≤ 1 := by
    unfold maxCountOf
    exact foldl_max_le _ 0 1 (by omega)
      fun p hp => (snd_eq_cntLower items p hp) ▸ h p.1
  unfold findConsensus
  rw [if_neg (by omega)]

/-- The merged `type` field, written out. -/
theorem mergeAnalyses_type (best : SourcedAnalysis) (rest : List SourcedAnalysis) :
    (mergeAnalyses best rest).type =
      jsOrStr (findConsensus (((best :: rest).map fun x => x.analysis.type).filter fun s => s != ""))
        best.analysis.type := rfl

/-- The merged `rockName` field, written out. -/
theorem mergeAnalyses_rockName (best : SourcedAnalysis) (rest : List SourcedAnalysis) :
    (mergeAnalyses best rest).rockName =
      jsOrStr (findConsensus (((best :: rest).map fun x => x.analysis.rockName).filter fun s => s != ""))
        best.analysis.rockName := rfl

/-- The merged `composition` field, written out. -/
theorem mergeAnalyses_composition (best : SourcedAnalysis) (rest : List SourcedAnalysis) :
    (mergeAnalyses best rest).composition =
      (dedupFirstSeen (((best :: rest).map fun x => x.analysis.composition).flatten)).take 5 := rfl

/-- The merged `confidence` field, written out. -/
theorem mergeAnalyses_confidence (best : SourcedAnalysis) (rest : List SourcedAnalysis) :
    (mergeAnalyses best rest).confidence =
      min ((2 * ((best :: rest).map fun x => x.analysis.confidence).sum + (best :: rest).length) /
            (2 * (best :: rest).length) + 10) 95 := rfl

/-- The merged `analysisSource` field, written out. -/
theorem mergeAnalyses_analysisSource (best : SourcedAnalysis) (rest : List SourcedAnalysis) :
    (mergeAnalyses best rest).analysisSource =
      "Multi-AI Analysis (" ++
        String.intercalate (", ") ((best :: rest).map fun x => x.source) ++ ")" := rfl

/-- The voted `type` list after unfolding a known sort result. -/
theorem typesOf_eq (g o a : Option RockAnalysis) (best : SourcedAnalysis)
    (rest : List SourcedAnalysis) (hs : sortedList g o a = best :: rest) :
    typesOf g o a = ((best :: rest).map fun x => x.analysis.type).filter fun s => s != "" := by
  simp only [typesOf, hs]

/-- The voted `rockName` list after unfolding a known sort result. -/
theorem rockNamesOf_eq (g o a : Option RockAnalysis) (best : SourcedAnalysis)
    (rest : List SourcedAnalysis) (hs : sortedList g o a = best :: rest) :
    rockNamesOf g o a = ((best :: rest).map fun x => x.analysis.rockName).filter fun s => s != "" := by
  simp only [rockNamesOf, hs]

/-- A strict plurality (possible only for a value repeating at least twice in
a list of at most three nonempty values) wins the vote-with-anchor-fallback. -/
theorem jsOrStr_findConsensus_plural (items : List String) (d w : String)
    (hlen : items.length ≤ 3) (h2 : 2 ≤ cntLower w items)
    (hne : ∀ r ∈ items, r ≠ "") :
    jsToLower (jsOrStr (findConsensus items) d) = w ∧ jsOrStr (findConsensus items) d ∈ items := by
  have hmax : ∀ u, u ≠ w → cntLower u items < cntLower w items := by
    intro u hu
    have hdisj := countP_two_le_length (fun s => jsToLower s == u) (fun s => jsToLower s == w) items ?_
    · have e1 : items.countP (fun s => jsToLower s == u) = cntLower u items := rfl
      have e2 : items.countP (fun s => jsToLower s == w) = cntLower w items := rfl
      omega
    · intro s hs
      rcases hs with ⟨h1, h2'⟩
      rw [beq_iff_eq] at h1 h2'
      exact hu (h1.symm.trans h2')
  obtain ⟨r, hfc, hrmem, hrl⟩ := findConsensus_plural items w h2 hmax
  have hrne := hne r hrmem
  rw [hfc]
  constructor
  · simpa [jsOrStr, hrne] using hrl
  · simpa [jsOrStr, hrne] using hrmem

/-! ## Claim theorems -/

/-- Claim C1: for every nonempty list of successful records the categorical
fields `rockName` and `type` are decided by case-insensitive plurality vote —
a value occurring more than once becomes the output (even against the
highest-confidence anchor), and with no repeated value the anchor's value is
used; in the concrete scenario with types Igneous/Sedimentary/Igneous at
confidences 60/90/50, the output type is Igneous while `hardness` and
`formation` come verbatim from the 90-confidence anchor. -/
theorem consensus_vote_spec :
    (∀ (g o a : Option RockAnalysis) (w : String), 2 ≤ cntLower w (typesOf g o a) →
        jsToLower (combineMultipleAnalyses g o a).type = w ∧
        (combineMultipleAnalyses g o a).type ∈ typesOf g o a) ∧
    (∀ (g o a : Option RockAnalysis) (w : String), 2 ≤ cntLower w (rockNamesOf g o a) →
        jsToLower (combineMultipleAnalyses g o a).rockName = w ∧
        (combineMultipleAnalyses g o a).rockName ∈ rockNamesOf g o a) ∧
    (∀ (g o a : Option RockAnalysis) (best : SourcedAnalysis) (rest : List SourcedAnalysis),
        sortedList g o a = best :: rest → (∀ w, cntLower w (typesOf g o a) ≤ 1) →
        (combineMultipleAnalyses g o a).type = best.analysis.type) ∧
    (∀ (g o a : Option RockAnalysis) (best : SourcedAnalysis) (rest : List SourcedAnalysis),
        sortedList g o a = best :: rest → (∀ w, cntLower w (rockNamesOf g o a) ≤ 1) →
        (combineMultipleAnalyses g o a).rockName = best.analysis.rockName) ∧
    ((combineMultipleAnalyses (some igneous60) (some sedimentary90) (some igneous50)).type
        = "Igneous" ∧
     (combineMultipleAnalyses (some igneous60) (some sedimentary90) (some igneous50)).hardness
        = sedimentary90.hardness ∧
     (combineMultipleAnalyses (some igneous60) (some sedimentary90) (some igneous50)).formation
        = sedimentary90.formation) := by
  refine ⟨?_, ?_, ?_, ?_, by decide⟩
  · intro g o a w h2
    rcases hs : sortedList g o a with _ | ⟨best, rest⟩
    · exfalso
      have hempty : typesOf g o a = [] := by simp [typesOf, hs]
      rw [hempty] at h2
      simp [cntLower] at h2
    · have hlen : (typesOf g o a).length ≤ 3 :=
        projFilter_length_le_three g o a (fun x => x.analysis.type)
      have hne : ∀ r ∈ typesOf g o a, r ≠ "" := by
        intro r hr
        have := List.of_mem_filter hr
        simpa using this
      have key := jsOrStr_findConsensus_plural (typesOf g o a) best.analysis.type w hlen h2 hne
      have htype : (combineMultipleAnalyses g o a).type =
          jsOrStr (findConsensus (typesOf g o a)) best.analysis.type := by
        rw [combine_eq_merge g o a best rest hs, mergeAnalyses_type,
          ← typesOf_eq g o a best rest hs]
      rw [htype]
      exact key
  · intro g o a w h2
    rcases hs : sortedList g o a with _ | ⟨best, rest⟩
    · exfalso
      have hempty : rockNamesOf g o a = [] := by simp [rockNamesOf, hs]
      rw [hempty] at h2
      simp [cntLower] at h2
    · have hlen : (rockNamesOf g o a).length ≤ 3 :=
        projFilter_length_le_three g o a (fun x => x.analysis.rockName)
      have hne : ∀ r ∈ rockNamesOf g o a, r ≠ "" := by
        intro r hr
        have := List.of_mem_filter hr
        simpa using this
      have key := jsOrStr_findConsensus_plural (rockNamesOf g o a) best.analysis.rockName w hlen h2 hne
      have hname : (combineMultipleAnalyses g o a).rockName =
          jsOrStr (findConsensus (rockNamesOf g o a)) best.analysis.rockName := by
        rw [combine_eq_merge g o a best rest hs, mergeAnalyses_rockName,
          ← rockNamesOf_eq g o a best rest hs]
      rw [hname]
      exact key
  · intro g o a best rest hs hnr
    rw [combine_eq_merge g o a best rest hs, mergeAnalyses_type,
      ← typesOf_eq g o a best rest hs, findConsensus_no_repeat _ hnr]
    rfl
  · intro g o a best rest hs hnr
    rw [combine_eq_merge g o a best rest hs, mergeAnalyses_rockName,
      ← rockNamesOf_eq g o a best rest hs, findConsensus_no_repeat _ hnr]
    rfl

/-- Witness for C1: the plurality clause applied to the concrete scenario. -/
theorem consensus_vote_spec_witness :
    2 ≤ cntLower ("igneous") (typesOf (some igneous60) (some sedimentary90) (some igneous50)) ∧
    jsToLower (combineMultipleAnalyses (some igneous60) (some sedimentary90) (some igneous50)).type
      = "igneous" ∧
    (combineMultipleAnalyses (some igneous60) (some sedimentary90) (some igneous50)).type
      ∈ typesOf (some igneous60) (some sedimentary90) (some igneous50) :=
  ⟨by decide,
    (consensus_vote_spec.1 (some igneous60) (some sedimentary90) (some igneous50)
      ("igneous") (by decide)).1,
    (consensus_vote_spec.1 (some igneous60) (some sedimentary90) (some igneous50)
      ("igneous") (by decide)).2⟩

/-- Claim C2 counterexample: in the total-failure scenario the HTTP response
body reports confidence 65, not 0 — the handler's falsy-field defaulting
replaces the fallback's zero. -/
theorem total_failure_http_confidence_counterexample :
    (handleRequest (some ("img")) none none none).body.confidence = 65 ∧ (65 : Nat) ≠ 0 :=
  ⟨rfl, by decide⟩

/-- Claim C2 (amended): with all three settlements rejected the aggregator
returns the structurally complete zero-confidence fallback record whose text
fields are explicit placeholders and which names no contributing source, and
the HTTP wrapper still returns a renderable 200 body — whose confidence,
however, is the default 65, the handler having replaced the falsy zero. -/
theorem total_failure_fallback_amended :
    combineMultipleAnalyses none none none = noSuccessFallback ∧
    noSuccessFallback.confidence = 0 ∧
    noSuccessFallback.rockName = "Analysis Failed" ∧
    noSuccessFallback.formation = "All AI analyses failed" ∧
    noSuccessFallback.analysisSource = "No successful analysis" ∧
    extractAnalyses none none none = [] ∧
    (∀ img : String, img ≠ "" →
      (handleRequest (some img) none none none).status = 200 ∧
      (handleRequest (some img) none none none).body.confidence = 65) := by
  refine ⟨rfl, rfl, rfl, rfl, rfl, rfl, ?_⟩
  intro img himg
  constructor
  · simp [handleRequest, himg]
  · simp only [handleRequest, himg, if_neg himg]
    decide

/-- Witness for the amended C2 at a concrete request. -/
theorem total_failure_fallback_amended_witness :
    (handleRequest (some ("img")) none none none).status = 200 :=
  ((total_failure_fallback_amended.2.2.2.2.2.2) ("img") (by decide)).1

/-- Claim C3: for a nonempty success set, the aggregated confidence equals the
rounded mean of the contributing confidences plus the fixed boost 10, capped
at the ceiling 95; it is therefore at most 95, strictly below 100, and at
least 10 (hence nonnegative). -/
theorem confidence_recalibration :
    ∀ (g o a : Option RockAnalysis) (best : SourcedAnalysis) (rest : List SourcedAnalysis),
      sortedList g o a = best :: rest →
      (∀ p ∈ extractAnalyses g o a, p.analysis.confidence ≤ 100) →
      (combineMultipleAnalyses g o a).confidence
          = min ((2 * ((extractAnalyses g o a).map fun x => x.analysis.confidence).sum
                  + (extractAnalyses g o a).length) / (2 * (extractAnalyses g o a).length) + 10) 95
        ∧ (combineMultipleAnalyses g o a).confidence ≤ 95
        ∧ (combineMultipleAnalyses g o a).confidence < 100
        ∧ 10 ≤ (combineMultipleAnalyses g o a).confidence := by
  intro g o a best rest hs _hbound
  have hperm : (best :: rest).Perm (extractAnalyses g o a) := by
    have h := sortByConfDesc_perm (extractAnalyses g o a)
    unfold sortedList at hs
    rw [hs] at h
    exact h
  have hsum : ((best :: rest).map fun x => x.analysis.confidence).sum
      = ((extractAnalyses g o a).map fun x => x.analysis.confidence).sum :=
    (hperm.map _).sum_eq
  have hlen : (best :: rest).length = (extractAnalyses g o a).length := hperm.length_eq
  refine ⟨?_, ?_, ?_, ?_⟩
  · rw [combine_eq_merge g o a best rest hs, mergeAnalyses_confidence, hsum, hlen]
  · rw [combine_eq_merge g o a best rest hs, mergeAnalyses_confidence]
    exact min_le_right _ _
  · rw [combine_eq_merge g o a best rest hs, mergeAnalyses_confidence]
    exact lt_of_le_of_lt (min_le_right _ _) (by omega)
  · rw [combine_eq_merge g o a best rest hs, mergeAnalyses_confidence]
    exact le_min (Nat.le_add_left 10 _) (by omega)

/-- Witness for C3 at a concrete two-provider success set. -/
theorem confidence_recalibration_witness :
    (combineMultipleAnalyses (some igneous60) (some sedimentary90) none).confidence ≤ 95 :=
  (confidence_recalibration (some igneous60) (some sedimentary90) none
    ⟨sedimentary90, "OpenAI"⟩ [⟨igneous60, "Gemini"⟩] (by decide) (by decide)).2.1

/-- Claim C4 counterexample: the attribute lists Quartz-Mica, Mica-Feldspar,
Quartz with confidences 50, 90, 60 merge to Mica-Feldspar-Quartz — the merge
order is confidence-descending, not the claimed input order. -/
theorem attribute_union_counterexample :
    (combineMultipleAnalyses (some (quartzMica 50)) (some (micaFeldspar 90))
        (some (quartzOnly 60))).composition = ["Mica", "Feldspar", "Quartz"] ∧
    (["Mica", "Feldspar", "Quartz"] : List String) ≠ ["Quartz", "Mica", "Feldspar"] :=
  ⟨by decide, by decide⟩

/-- Claim C4 (amended): the output composition is the concatenation of the
records' attribute lists taken in confidence-descending (stable) order,
deduplicated case-sensitively keeping first occurrences, and capped at five
entries; the Quartz-Mica-Feldspar example holds when the records already
arrive in confidence-descending order. -/
theorem attribute_union_amended :
    (∀ (g o a : Option RockAnalysis) (best : SourcedAnalysis) (rest : List SourcedAnalysis),
        sortedList g o a = best :: rest →
        (combineMultipleAnalyses g o a).composition
            = (dedupFirstSeen (((best :: rest).map fun x => x.analysis.composition).flatten)).take 5
          ∧ (combineMultipleAnalyses g o a).composition.Nodup
          ∧ (combineMultipleAnalyses g o a).composition.length ≤ 5) ∧
    (combineMultipleAnalyses (some (quartzMica 90)) (some (micaFeldspar 70))
        (some (quartzOnly 50))).composition = ["Quartz", "Mica", "Feldspar"] := by
  refine ⟨?_, by decide⟩
  intro g o a best rest hs
  rw [combine_eq_merge g o a best rest hs, mergeAnalyses_composition]
  refine ⟨rfl, ?_, ?_⟩
  · exact List.Nodup.sublist (List.take_sublist _ _) (dedupFirstSeen_nodup _)
  · rw [List.length_take]
    exact min_le_left _ _

/-- Witness for the amended C4 at the reordering scenario. -/
theorem attribute_union_amended_witness :
    (combineMultipleAnalyses (some (quartzMica 50)) (some (micaFeldspar 90))
        (some (quartzOnly 60))).composition.length ≤ 5 :=
  (attribute_union_amended.1 (some (quartzMica 50)) (some (micaFeldspar 90))
    (some (quartzOnly 60)) ⟨micaFeldspar 90, "OpenAI"⟩
    [⟨quartzOnly 60, "Anthropic"⟩, ⟨quartzMica 50, "Gemini"⟩] (by decide)).2.2

/-- Claim C5 counterexample: with Gemini at confidence 50 and OpenAI at 90
both fulfilled, the provenance string lists OpenAI before Gemini — the
confidence-descending order, not the claimed dispatch/fulfilment order. -/
theorem provenance_order_counterexample :
    (combineMultipleAnalyses (some (quartzMica 50)) (some (micaFeldspar 90)) none).analysisSource
      = "Multi-AI Analysis (OpenAI, Gemini)" ∧
    ((extractAnalyses (some (quartzMica 50)) (some (micaFeldspar 90)) none).map fun x => x.source)
      = ["Gemini", "OpenAI"] ∧
    ("Multi-AI Analysis (OpenAI, Gemini)" : String) ≠ "Multi-AI Analysis (Gemini, OpenAI)" :=
  ⟨by decide, by decide, by decide⟩

/-- Claim C5 (amended): the provenance names exactly the sources of all
contributing records — none omitted, none duplicated — but in the
confidence-descending (stable) order induced by the in-place sort, not in the
dispatch order. -/
theorem provenance_amended :
    ∀ (g o a : Option RockAnalysis) (best : SourcedAnalysis) (rest : List SourcedAnalysis),
      sortedList g o a = best :: rest →
      (combineMultipleAnalyses g o a).analysisSource
          = "Multi-AI Analysis ("
              ++ String.intercalate (", ") ((best :: rest).map fun x => x.source) ++ ")"
        ∧ ((best :: rest).map fun x => x.source).Perm
            ((extractAnalyses g o a).map fun x => x.source)
        ∧ ((best :: rest).map fun x => x.source).Nodup := by
  intro g o a best rest hs
  have hperm : (best :: rest).Perm (extractAnalyses g o a) := by
    have h := sortByConfDesc_perm (extractAnalyses g o a)
    unfold sortedList at hs
    rw [hs] at h
    exact h
  refine ⟨?_, hperm.map _, ?_⟩
  · rw [combine_eq_merge g o a best rest hs, mergeAnalyses_analysisSource]
  · exact ((hperm.map _).nodup_iff).mpr (extract_sources_nodup g o a)

/-- Witness for the amended C5 at the two-provider scenario. -/
theorem provenance_amended_witness :
    (combineMultipleAnalyses (some (quartzMica 50)) (some (micaFeldspar 90)) none).analysisSource
      = "Multi-AI Analysis ("
          ++ String.intercalate (", ")
              (([⟨micaFeldspar 90, "OpenAI"⟩, ⟨quartzMica 50, "Gemini"⟩] :
                List SourcedAnalysis).map fun x => x.source) ++ ")" :=
  (provenance_amended (some (quartzMica 50)) (some (micaFeldspar 90)) none
    ⟨micaFeldspar 90, "OpenAI"⟩ [⟨quartzMica 50, "Gemini"⟩] (by decide)).1

/-- Claim C6 counterexample: a request whose image field is present but an
empty string is answered with status 500, not 200 — the handler's falsiness
check treats it like a missing field. -/
theorem handler_status_counterexample :
    (handleRequest (some ("")) none none none).status = 500 ∧ (500 : Nat) ≠ 200 :=
  ⟨rfl, by decide⟩

/-- Claim C6 (amended): every request with a nonempty image field receives
status 200 for all eight combinations of per-provider success and failure,
total fallback included; a missing or empty image field yields status 500
whose body still carries both an error string and a complete record-shaped
payload. -/
theorem handler_status_amended :
    (∀ (img : String) (g o a : Option RockAnalysis), img ≠ "" →
        (handleRequest (some img) g o a).status = 200 ∧
        (handleRequest (some img) g o a).body.error = none) ∧
    (∀ g o a : Option RockAnalysis,
        (handleRequest none g o a).status = 500 ∧
        (handleRequest none g o a).body = errorBody) ∧
    (∀ g o a : Option RockAnalysis,
        (handleRequest (some ("")) g o a).status = 500 ∧
        (handleRequest (some ("")) g o a).body = errorBody) ∧
    errorBody.error = some ("No image provided") ∧
    errorBody.rockName = "Unknown Rock" ∧
    errorBody.confidence = 0 := by
  refine ⟨?_, ?_, ?_, rfl, rfl, rfl⟩
  · intro img g o a h
    constructor <;> simp [handleRequest, h, okBody]
  · intro g o a
    exact ⟨rfl, rfl⟩
  · intro g o a
    exact ⟨rfl, rfl⟩

/-- Witness for the amended C6 at a concrete request. -/
theorem handler_status_amended_witness :
    (handleRequest (some ("pic")) none (some igneous50) none).status = 200 :=
  (handler_status_amended.1 ("pic") none (some igneous50) none (by decide)).1

/-- Claim C7: when a provider's reply text carries no decodable JSON object
(or no text at all), each adapter degrades to its fully populated placeholder
record, whose confidence lies in 25..50 — low but nonzero, so the record still
enters aggregation. -/
theorem parser_failure_placeholder :
    (∀ (decode : String → Option RockAnalysis) (t : String),
        (extractJson t).bind decode = none →
        geminiTextToAnalysis decode (some t) = geminiPlaceholder ∧
        openaiTextToAnalysis decode (some t) = openaiPlaceholder ∧
        anthropicTextToAnalysis decode (some t) = anthropicPlaceholder) ∧
    (∀ decode : String → Option RockAnalysis,
        geminiTextToAnalysis decode none = geminiPlaceholder ∧
        openaiTextToAnalysis decode none = openaiPlaceholder ∧
        anthropicTextToAnalysis decode none = anthropicPlaceholder) ∧
    (populatedRecord geminiPlaceholder = true ∧ populatedRecord openaiPlaceholder = true ∧
        populatedRecord anthropicPlaceholder = true) ∧
    (25 ≤ geminiPlaceholder.confidence ∧ geminiPlaceholder.confidence ≤ 50 ∧
        25 ≤ openaiPlaceholder.confidence ∧ openaiPlaceholder.confidence ≤ 50 ∧
        25 ≤ anthropicPlaceholder.confidence ∧ anthropicPlaceholder.confidence ≤ 50) := by
  refine ⟨?_, ?_, by decide, by decide⟩
  · intro decode t h
    refine ⟨?_, ?_, ?_⟩ <;>
    · simp only [geminiTextToAnalysis, openaiTextToAnalysis, anthropicTextToAnalysis, adapterParse]
      by_cases ht : t = "" <;> simp [ht, h]
  · intro decode
    exact ⟨rfl, rfl, rfl⟩

/-- Witness for C7 with a decoder that always fails. -/
theorem parser_failure_placeholder_witness :
    geminiTextToAnalysis (fun _ => none) (some ("no braces here")) = geminiPlaceholder :=
  (parser_failure_placeholder.1 (fun _ => none) ("no braces here") (by decide)).1

/-- Claim C8 counterexample: a decoded `hardness` of the number 7 — truthy and
of the wrong type — is copied verbatim from the anchor by the aggregator and
survives the response step's falsiness-only defaulting, reaching the caller
unchanged instead of being replaced by the type-appropriate string default. -/
theorem wrong_type_default_counterexample :
    (buildResult wrongHardnessCombined).hardness = JValue.jnum 7 ∧
    (buildResult wrongHardnessCombined).hardness ≠ JValue.jstr ("Unknown") := by
  refine ⟨rfl, ?_⟩
  intro h
  rw [show (buildResult wrongHardnessCombined).hardness = JValue.jnum 7 from rfl] at h
  exact JValue.noConfusion h

/-- Claim C8 (amended): the parser extracts the substring from the first
opening brace through the last closing brace and attempts the decode; on
success the decoded record is returned as-is with no field validation, on
failure the placeholder path triggers, and nothing raises.  The code never
type-checks decoded fields: the aggregator copies the non-mergeable fields
(here `hardness`, `formation`) verbatim from the anchor record, and the
response step replaces a field by its fixed default only when the field is
falsy — so a truthy wrong-typed value in such a field reaches the caller
unchanged rather than being replaced by a type-appropriate default. -/
theorem extraction_and_defaults_amended :
    (∀ (decode : String → Option RockAnalysis) (t j : String) (r : RockAnalysis),
        extractJson t = some j → decode j = some r →
        geminiTextToAnalysis decode (some t) = r) ∧
    (∀ (decode : String → Option RockAnalysis) (t : String),
        (extractJson t).bind decode = none →
        geminiTextToAnalysis decode (some t) = geminiPlaceholder) ∧
    extractJson ("Sure! \x7b\"rockName\": \"Basalt\"\x7d extra \x7d tail")
      = some ("\x7b\"rockName\": \"Basalt\"\x7d extra \x7d") ∧
    extractJson ("no structured content") = none ∧
    (∀ (g o a : Option RockAnalysis) (best : SourcedAnalysis) (rest : List SourcedAnalysis),
        sortedList g o a = best :: rest →
        (combineMultipleAnalyses g o a).hardness = best.analysis.hardness ∧
        (combineMultipleAnalyses g o a).formation = best.analysis.formation) ∧
    (∀ c : JRecord,
        (c.hardness.truthy = false → (buildResult c).hardness = JValue.jstr ("Unknown")) ∧
        (c.hardness.truthy = true → (buildResult c).hardness = c.hardness)) := by
  refine ⟨?_, ?_, by decide, by decide, ?_, ?_⟩
  · intro decode t j r hj hr
    have ht : t ≠ "" := by
      intro h
      subst h
      have : extractJson ("") = none := by decide
      rw [this] at hj
      exact Option.noConfusion hj
    simp [geminiTextToAnalysis, adapterParse, ht, hj, hr]
  · intro decode t h
    simp only [geminiTextToAnalysis, adapterParse]
    by_cases ht : t = "" <;> simp [ht, h]
  · intro g o a best rest hs
    rw [combine_eq_merge g o a best rest hs]
    exact ⟨rfl, rfl⟩
  · intro c
    refine ⟨?_, ?_⟩ <;> intro h <;> simp [buildResult, jsOr, h]

/-- Witness for the amended C8: a successful extraction and decode. -/
theorem extraction_and_defaults_amended_witness :
    geminiTextToAnalysis (fun _ => some igneous50) (some ("a\x7bb\x7dc")) = igneous50 :=
  extraction_and_defaults_amended.1 (fun _ => some igneous50) ("a\x7bb\x7dc") ("\x7bb\x7d")
    igneous50 (by decide) rfl

/-- Claim C9: the aggregation step is deterministic — equal settlement inputs
produce identical canonical records, field by field. -/
theorem combine_deterministic :
    ∀ g o a g2 o2 a2 : Option RockAnalysis, g = g2 → o = o2 → a = a2 →
      combineMultipleAnalyses g o a = combineMultipleAnalyses g2 o2 a2 ∧
      (combineMultipleAnalyses g o a).rockName = (combineMultipleAnalyses g2 o2 a2).rockName ∧
      (combineMultipleAnalyses g o a).type = (combineMultipleAnalyses g2 o2 a2).type ∧
      (combineMultipleAnalyses g o a).composition
        = (combineMultipleAnalyses g2 o2 a2).composition ∧
      (combineMultipleAnalyses g o a).confidence
        = (combineMultipleAnalyses g2 o2 a2).confidence ∧
      (combineMultipleAnalyses g o a).analysisSource
        = (combineMultipleAnalyses g2 o2 a2).analysisSource := by
  intro g o a g2 o2 a2 hg ho ha
  subst hg
  subst ho
  subst ha
  exact ⟨rfl, rfl, rfl, rfl, rfl, rfl⟩

/-- Witness for C9 at a concrete input. -/
theorem combine_deterministic_witness :
    combineMultipleAnalyses (some igneous60) none none
      = combineMultipleAnalyses (some igneous60) none none :=
  (combine_deterministic (some igneous60) none none (some igneous60) none none
    rfl rfl rfl).1

/-- Claim C10: on the 200 path the handler replaces every falsy field of the
combined analysis with a fixed nonempty default — in particular a combined
confidence of 0 becomes 65 — so the 200-path body never reports confidence 0,
while the error body does report 0. -/
theorem ok_path_confidence_default :
    (∀ (img : String) (g o a : Option RockAnalysis), img ≠ "" →
        (handleRequest (some img) g o a).body.confidence
            = (if (combineMultipleAnalyses g o a).confidence = 0 then 65
               else (combineMultipleAnalyses g o a).confidence) ∧
        (handleRequest (some img) g o a).body.confidence ≠ 0 ∧
        (handleRequest (some img) g o a).body.rockName ≠ "" ∧
        (handleRequest (some img) g o a).body.type ≠ "" ∧
        (handleRequest (some img) g o a).body.hardness ≠ "" ∧
        (handleRequest (some img) g o a).body.formation ≠ "" ∧
        (handleRequest (some img) g o a).body.funFact ≠ "") ∧
    (∀ g o a : Option RockAnalysis, (handleRequest none g o a).body.confidence = 0) := by
  refine ⟨?_, fun g o a => rfl⟩
  intro img g o a h
  have hb : handleRequest (some img) g o a = ⟨200, okBody (combineMultipleAnalyses g o a)⟩ := by
    simp [handleRequest, h]
  rw [hb]
  refine ⟨rfl, ?_, ?_, ?_, ?_, ?_, ?_⟩
  · by_cases hc : (combineMultipleAnalyses g o a).confidence = 0 <;> simp [okBody, jsOrN, hc]
  · by_cases hc : (combineMultipleAnalyses g o a).rockName = "" <;> simp [okBody, jsOrS, hc]
  · by_cases hc : (combineMultipleAnalyses g o a).type = "" <;> simp [okBody, jsOrS, hc]
  · by_cases hc : (combineMultipleAnalyses g o a).hardness = "" <;> simp [okBody, jsOrS, hc]
  · by_cases hc : (combineMultipleAnalyses g o a).formation = "" <;> simp [okBody, jsOrS, hc]
  · by_cases hc : (combineMultipleAnalyses g o a).funFact = "" <;> simp [okBody, jsOrS, hc]

/-- Witness for C10 at a concrete request with total provider failure. -/
theorem ok_path_confidence_default_witness :
    (handleRequest (some ("img")) none none none).body.confidence ≠ 0 :=
  (ok_path_confidence_default.1 ("img") none none none (by decide)).2.1

end RockWise
